import Mathlib

/-
  Verification of the execution planner core (session slicer, weight curve,
  plan builder, pacing tracker, performance evaluator).

  Shallow embedding conventions:
  - Times of day are minutes since midnight, as integers. The source keeps
    times as zero padded HH:MM strings; for canonical strings (hours below 24,
    minutes below 60) string comparison and parsed minute comparison agree, so
    both are modeled by integer comparison.
  - JavaScript numbers are idealized as rationals; Math.floor and Math.ceil
    become Int.floor and Int.ceil.
  - Quantities entered through the integer inputs of the UI (order quantity,
    volumes, interval length) are naturals.
-/

namespace ExecutionPlanner

/-- Order side, source type Side. -/
inductive Side where
  | BUY
  | SELL
deriving DecidableEq

/-- Execution style, source type ExecMode; OTD is the time sliced style and
INLINE the participation of volume style. -/
inductive ExecMode where
  | OTD
  | INLINE
deriving DecidableEq

/-- Participation cap switch, source type CapMode. -/
inductive CapMode where
  | NONE
  | PCT
deriving DecidableEq

/-- Weight curve selector, source type Curve. -/
inductive Curve where
  | equal
  | ucurve
deriving DecidableEq

/-- Source minutesBetween on parsed minute values. -/
def minutesBetween (t1 t2 : ℤ) : ℤ := t2 - t1

/-- Source addMinutes: add and reduce into [0, 1440) with a double modulus,
which is exactly the mathematical emod by 1440. -/
def addMinutes (t mins : ℤ) : ℤ := (t + mins) % 1440

/-- Source withinSlice: cur lies in [s, e), comparing minute values. -/
def withinSlice (cur s e : ℤ) : Prop := s ≤ cur ∧ cur < e

instance (cur s e : ℤ) : Decidable (withinSlice cur s e) := by
  unfold withinSlice
  infer_instance

/-- Midpoint index used by the u curve, (n - 1) / 2 as a rational. -/
def uCurveMid (n : ℕ) : ℚ := ((n : ℚ) - 1) / 2

/-- Unnormalized u curve weight for index i out of n; the divisor falls back
to 1 when the midpoint is 0 (the source writes mid or 1), which happens for
n = 1. -/
def uCurveRaw (n i : ℕ) : ℚ :=
  let mid := uCurveMid n
  let d := if mid = 0 then 1 else mid
  0.6 + 0.8 * (1 - |(i : ℚ) - mid| / d)

/-- The list of unnormalized u curve weights. -/
def uCurveRawList (n : ℕ) : List ℚ := (List.range n).map (uCurveRaw n)

/-- Normalization divisor of the u curve: the raw sum, falling back to 1
when it is 0 (the source writes sum or 1). -/
def uCurveNorm (n : ℕ) : ℚ :=
  if (uCurveRawList n).sum = 0 then 1 else (uCurveRawList n).sum

/-- Source uCurveWeights: raw weights normalized by their sum. -/
def uCurveWeights (n : ℕ) : List ℚ :=
  if n = 0 then [] else (uCurveRawList n).map (fun w => w / uCurveNorm n)

/-- Source equalWeights: n copies of 1 / n. -/
def equalWeights (n : ℕ) : List ℚ :=
  if n = 0 then [] else List.replicate n (1 / (n : ℚ))

/-- One session slice with start and end minute. -/
structure Slice where
  s : ℤ
  e : ℤ
deriving DecidableEq

/-- Source timeSlices: the window length is clipped at 0, the count is
max 1 (ceil (total / step)), slice bounds are start plus multiples of step,
and the last slice end is forced to the exact session end. For step > 0 the
natural division (total + step - 1) / step equals Math.ceil(total / step). -/
def timeSlices (start endT : ℤ) (step : ℕ) : List Slice :=
  let total : ℕ := (endT - start).toNat
  let n : ℕ := max 1 ((total + step - 1) / step)
  (List.range n).map (fun (i : ℕ) =>
    { s := addMinutes start ((i : ℤ) * (step : ℤ))
      e := if i = n - 1 then endT else addMinutes start (((i : ℤ) + 1) * (step : ℤ)) })

/-- Source applyCap. Both call sites pass an already floored integer qty, so
the inner Math.floor of the source is the identity and qty is an integer
here. -/
def applyCap (capMode : CapMode) (maxPart : ℚ) (qty : ℤ) (sliceVol : ℤ) : ℤ :=
  match capMode with
  | .NONE => max 0 qty
  | .PCT => max 0 (min qty ⌊(sliceVol : ℚ) * maxPart / 100⌋)

/-- Order fields used by the planning core, source type Order. -/
structure Order where
  orderQty : ℕ
  side : Side
  execMode : ExecMode
  capMode : CapMode
  maxPart : ℚ
  reserveAuctionPct : ℚ
  deferCompletion : Bool
  sessionStart : ℤ
  sessionEnd : ℤ
  intervalMins : ℕ
  curve : Curve
  currentVol : ℕ
  expectedContVol : ℕ
  expectedAuctionVol : ℕ
  marketTurnover : ℚ
  marketVWAPInput : ℚ
  orderExecQty : ℕ
  orderExecNotional : ℚ
deriving DecidableEq

/-- One plan row, source type BuiltRow; maxAllowed none models the unbounded
marker of the source. -/
structure BuiltRow where
  s : ℤ
  e : ℤ
  expMktVol : ℤ
  maxAllowed : Option ℤ
  suggestedQty : ℤ
deriving DecidableEq

/-- A built plan, source type BuiltPlan. -/
structure BuiltPlan where
  rows : List BuiltRow
  contPlanned : ℤ
  auctionAllowed : ℤ
  auctionPlanned : ℤ
deriving DecidableEq

instance : Inhabited BuiltRow := ⟨{ s := 0, e := 0, expMktVol := 0, maxAllowed := none, suggestedQty := 0 }⟩

/-- Slices of the session window of an order. -/
def planSlices (o : Order) : List Slice :=
  timeSlices o.sessionStart o.sessionEnd o.intervalMins

/-- Weight vector chosen by the curve field, one weight per slice. -/
def planWeights (o : Order) : List ℚ :=
  if o.curve = Curve.equal then equalWeights (planSlices o).length
  else uCurveWeights (planSlices o).length

/-- Expected continuous volume per slice, floor of weight times forecast. -/
def contVolPerSlice (o : Order) : List ℤ :=
  (planWeights o).map (fun w => ⌊w * (o.expectedContVol : ℚ)⌋)

/-- Per slice data walked by the plan builder: slice, weight, slice volume. -/
def planItems (o : Order) : List (Slice × ℚ × ℤ) :=
  (planSlices o).zip ((planWeights o).zip (contVolPerSlice o))

/-- Source reserveAuctionQty inside buildPlan. -/
def reserveAuctionQty (o : Order) : ℤ :=
  ⌊(o.orderQty : ℚ) * o.reserveAuctionPct / 100⌋

/-- Source auctionAllowed inside buildPlan. -/
def auctionAllowedOf (o : Order) : ℤ :=
  if o.capMode = CapMode.PCT then ⌊(o.expectedAuctionVol : ℚ) * o.maxPart / 100⌋
  else (o.expectedAuctionVol : ℤ)

/-- Source targetContinuousQty inside the OTD branch of buildPlan. -/
def otdTarget (o : Order) : ℤ := max 0 ((o.orderQty : ℤ) - reserveAuctionQty o)

/-- The maxAllowed column of a row. -/
def rowMaxAllowed (capMode : CapMode) (maxPart : ℚ) (sliceVol : ℤ) : Option ℤ :=
  if capMode = CapMode.PCT then some ⌊(sliceVol : ℚ) * maxPart / 100⌋ else none

/-- Hold back amount of the defer completion rule, ceil of 5 percent of the
continuous target. -/
def otdKeepBack (target : ℤ) : ℤ := ⌈(target : ℚ) * 0.05⌉

/-- The OTD slice walk of buildPlan, carrying the running remaining quantity.
The last slice is the one whose tail is empty. -/
def otdLoop (capMode : CapMode) (maxPart : ℚ) (defer : Bool) (target : ℤ) :
    List (Slice × ℚ × ℤ) → ℤ → List BuiltRow
  | [], _ => []
  | (sl, w, vol) :: rest, remaining =>
    let sliceVol := max 0 vol
    let base := min ⌊w * (target : ℚ)⌋ remaining
    let sug0 := applyCap capMode maxPart base sliceVol
    let sug1 := if defer ∧ ¬rest.isEmpty ∧ remaining - sug0 ≤ 0
                then max 0 (remaining - otdKeepBack target) else sug0
    let sug := min sug1 remaining
    { s := sl.s, e := sl.e, expMktVol := sliceVol
      maxAllowed := rowMaxAllowed capMode maxPart sliceVol
      suggestedQty := sug } :: otdLoop capMode maxPart defer target rest (remaining - sug)

/-- Rows of the OTD branch of buildPlan for an order. -/
def otdRows (o : Order) : List BuiltRow :=
  otdLoop o.capMode o.maxPart o.deferCompletion (otdTarget o) (planItems o) (otdTarget o)

/-- Source pov inside the INLINE branch of buildPlan. -/
def inlinePov (o : Order) : ℚ :=
  let expectedTotalVol : ℕ := o.currentVol + o.expectedContVol + o.expectedAuctionVol
  if 0 < expectedTotalVol then min 1 ((o.orderQty : ℚ) / (expectedTotalVol : ℚ)) else 0

/-- One row of the INLINE branch of buildPlan. -/
def inlineRow (capMode : CapMode) (maxPart : ℚ) (pov : ℚ) (it : Slice × ℚ × ℤ) : BuiltRow :=
  let sliceVol := max 0 it.2.2
  let base : ℤ := ⌊(sliceVol : ℚ) * pov⌋
  { s := it.1.s, e := it.1.e, expMktVol := sliceVol
    maxAllowed := rowMaxAllowed capMode maxPart sliceVol
    suggestedQty := applyCap capMode maxPart base sliceVol }

/-- Rows of the INLINE branch of buildPlan before the excess trim. -/
def inlineRows (o : Order) : List BuiltRow :=
  (planItems o).map (inlineRow o.capMode o.maxPart (inlinePov o))

/-- Source auctionPlanned of the INLINE branch before the excess step. -/
def inlineAuctionPlanned (o : Order) : ℤ :=
  if o.capMode = CapMode.PCT
  then ⌊(o.expectedAuctionVol : ℚ) * inlinePov o * o.maxPart / 100⌋
  else ⌊(o.expectedAuctionVol : ℚ) * inlinePov o⌋

/-- Tail first trim of the INLINE defer completion branch, expressed on the
reversed row list; excess stays at its initial value while need tracks the
running gap totalPlanned minus orderQty, exactly as in the source loop. -/
def trimLoop (excess : ℤ) : List BuiltRow → ℤ → List BuiltRow
  | [], _ => []
  | r :: rest, need =>
    if need ≤ 0 then r :: rest
    else
      let t := min excess r.suggestedQty
      { r with suggestedQty := r.suggestedQty - t } :: trimLoop excess rest (need - t)

/-- The contPlanned reduction of the OTD branch of buildPlan. -/
def otdContPlanned (o : Order) : ℤ := ((otdRows o).map BuiltRow.suggestedQty).sum

/-- The OTD branch of the source buildPlan. -/
def buildPlanOTD (o : Order) : BuiltPlan :=
  { rows := otdRows o
    contPlanned := otdContPlanned o
    auctionAllowed := auctionAllowedOf o
    auctionPlanned :=
      min (reserveAuctionQty o + max 0 (otdTarget o - otdContPlanned o)) (auctionAllowedOf o) }

/-- The contPlanned reduction of the INLINE branch of buildPlan, computed
before the excess step. -/
def inlineContPlanned (o : Order) : ℤ := ((inlineRows o).map BuiltRow.suggestedQty).sum

/-- Source totalPlanned of the INLINE branch. -/
def inlineTotalPlanned (o : Order) : ℤ := inlineContPlanned o + inlineAuctionPlanned o

/-- Source excess of the INLINE branch. -/
def inlineExcess (o : Order) : ℤ := inlineTotalPlanned o - (o.orderQty : ℤ)

/-- The INLINE branch of the source buildPlan. Note that contPlanned is
computed before the trim loop and is returned unchanged even when the trim
loop mutates the rows. -/
def buildPlanInline (o : Order) : BuiltPlan :=
  if (o.orderQty : ℤ) < inlineTotalPlanned o then
    if o.deferCompletion then
      { rows := (trimLoop (inlineExcess o) (inlineRows o).reverse (inlineExcess o)).reverse
        contPlanned := inlineContPlanned o
        auctionAllowed := auctionAllowedOf o
        auctionPlanned := inlineAuctionPlanned o }
    else
      { rows := inlineRows o
        contPlanned := inlineContPlanned o
        auctionAllowed := auctionAllowedOf o
        auctionPlanned := max 0 (inlineAuctionPlanned o - inlineExcess o) }
  else
    { rows := inlineRows o
      contPlanned := inlineContPlanned o
      auctionAllowed := auctionAllowedOf o
      auctionPlanned := inlineAuctionPlanned o }

/-- Source buildPlan, dispatching on the execution mode. -/
def buildPlan (o : Order) : BuiltPlan :=
  if o.execMode = ExecMode.OTD then buildPlanOTD o else buildPlanInline o

/-- Source targetAccumByNow inner loop: full quantity for past rows, a
proportional floor for the live row, stop at the first future row. -/
def accumRows : List BuiltRow → ℤ → ℤ
  | [], _ => 0
  | r :: rest, now =>
    if r.e ≤ now then r.suggestedQty + accumRows rest now
    else if withinSlice now r.s r.e then
      let sliceLen := max 1 (minutesBetween r.s r.e)
      let elapsed := max 0 (minutesBetween r.s now)
      let frac : ℚ := min 1 (max 0 ((elapsed : ℚ) / (sliceLen : ℚ)))
      ⌊(r.suggestedQty : ℚ) * frac⌋
    else 0

/-- Source targetAccumByNow; the sessionStart argument is unused in the
source as well. -/
def targetAccumByNow (plan : BuiltPlan) (sessionStart : ℤ) (now : ℤ) : ℤ :=
  accumRows plan.rows now

/-- Source performanceBps; a zero VWAP on either side is the falsy guard of
the source and yields 0. -/
def performanceBps (side : Side) (orderVWAP marketVWAP : ℚ) : ℚ :=
  if marketVWAP = 0 ∨ orderVWAP = 0 then 0
  else if side = Side.BUY then (marketVWAP - orderVWAP) / marketVWAP * 10000
  else (orderVWAP - marketVWAP) / marketVWAP * 10000

/-- Pacing classification labels of the StatusHUD. -/
inductive PacingTag where
  | AHEAD
  | BEHIND
  | ON_TRACK
deriving DecidableEq

/-- Source pacingPct of StatusHUD: relative delta in percent when the
accumulated target is positive, else 0. -/
def pacingPct (execAccum shouldAccum : ℤ) : ℚ :=
  if 0 < shouldAccum then ((execAccum : ℚ) - (shouldAccum : ℚ)) / (shouldAccum : ℚ) * 100
  else 0

/-- Source pacingTag of StatusHUD: a strict 8 percent band on pacingPct. -/
def pacingTag (execAccum shouldAccum : ℤ) : PacingTag :=
  if 8 < pacingPct execAccum shouldAccum then PacingTag.AHEAD
  else if pacingPct execAccum shouldAccum < -8 then PacingTag.BEHIND
  else PacingTag.ON_TRACK

/-- Spec formulation of the OTD reserve quantity, section 4.3 step 1 of the
spec: floor (orderQty times reserveForAuctionPct over 100). -/
def specReserveQty (o : Order) : ℤ := ⌊(o.orderQty : ℚ) * o.reserveAuctionPct / 100⌋

/-- Spec formulation of the post reserve continuous target, section 4.3
step 2 of the spec: max 0 (orderQty minus the reserve). -/
def specContinuousTarget (o : Order) : ℤ := max 0 ((o.orderQty : ℤ) - specReserveQty o)

/-- A small OTD order with a percent cap, used to instantiate theorems with
hypotheses at concrete inputs. -/
def testOrder : Order :=
  { orderQty := 1000, side := Side.BUY, execMode := ExecMode.OTD
    capMode := CapMode.PCT, maxPart := 15, reserveAuctionPct := 10
    deferCompletion := false, sessionStart := 570, sessionEnd := 630
    intervalMins := 30, curve := Curve.equal, currentVol := 0
    expectedContVol := 600, expectedAuctionVol := 200, marketTurnover := 0
    marketVWAPInput := 0, orderExecQty := 0, orderExecNotional := 0 }

/-- The test order with one million shares, for the reserve before slice
scenario of the spec. -/
def otdMillionOrder : Order := { testOrder with orderQty := 1000000 }

/-- The test order with a single session slice, used to keep concrete
evaluations small. -/
def capWitnessOrder : Order := { testOrder with intervalMins := 60 }

/-- An OTD order with a reserve percentage above 100: the reserve quantity
exceeds the order quantity and the auction leg over allocates. -/
def overReserveOrder : Order :=
  { testOrder with orderQty := 100, reserveAuctionPct := 200
                   capMode := CapMode.NONE, maxPart := 0
                   expectedContVol := 0, expectedAuctionVol := 500
                   intervalMins := 60 }

/-- An INLINE order with defer completion, a percent cap above 100 and a
forecast that makes the planned total overshoot the order quantity, so the
tail trim of the source fires and leaves contPlanned stale. -/
def staleContOrder : Order :=
  { testOrder with orderQty := 100, execMode := ExecMode.INLINE
                   capMode := CapMode.PCT, maxPart := 200
                   reserveAuctionPct := 0, deferCompletion := true
                   sessionStart := 600, sessionEnd := 660, intervalMins := 60
                   currentVol := 0, expectedContVol := 100, expectedAuctionVol := 100 }

/- ==================== general helper lemmas ==================== -/

lemma list_sum_map_div (l : List ℚ) (c : ℚ) :
    (l.map (fun w => w / c)).sum = l.sum / c := by
  induction l with
  | nil => simp
  | cons a t ih => simp [ih, add_div]

lemma intCast_list_sum (l : List ℤ) :
    ((l.sum : ℤ) : ℚ) = (l.map (fun x : ℤ => (x : ℚ))).sum := by
  induction l with
  | nil => simp
  | cons a t ih => simp only [List.sum_cons, List.map_cons, Int.cast_add, ih]

/- ==================== weight lemmas ==================== -/

lemma equalWeights_length (n : ℕ) : (equalWeights n).length = n := by
  unfold equalWeights
  split <;> simp_all

lemma equalWeights_eq (n : ℕ) : ∀ w ∈ equalWeights n, w = 1 / (n : ℚ) := by
  unfold equalWeights
  split
  · simp
  · intro w hw
    exact List.eq_of_mem_replicate hw

lemma equalWeights_nonneg (n : ℕ) : ∀ w ∈ equalWeights n, 0 ≤ w := by
  intro w hw
  rw [equalWeights_eq n w hw]
  exact div_nonneg zero_le_one (Nat.cast_nonneg n)

lemma equalWeights_sum (n : ℕ) (h : 1 ≤ n) : (equalWeights n).sum = 1 := by
  have hn : n ≠ 0 := by omega
  have hq : (n : ℚ) ≠ 0 := Nat.cast_ne_zero.mpr hn
  unfold equalWeights
  rw [if_neg hn, List.sum_replicate, nsmul_eq_mul, mul_one_div, div_self hq]

lemma uCurveRaw_lb {n i : ℕ} (hi : i < n) : (3 / 5 : ℚ) ≤ uCurveRaw n i := by
  have hi1 : (i : ℚ) ≤ (n : ℚ) - 1 := by
    have : (i : ℚ) + 1 ≤ n := by exact_mod_cast hi
    linarith
  have hi0 : (0 : ℚ) ≤ i := Nat.cast_nonneg i
  unfold uCurveRaw uCurveMid
  simp only []
  by_cases h1 : ((n : ℚ) - 1) / 2 = 0
  · rw [if_pos h1]
    have hn1 : (n : ℚ) = 1 := by
      have : (n : ℚ) - 1 = 0 := by linarith [(div_eq_zero_iff.mp h1).resolve_right (by norm_num)]
      linarith
    have hiz : (i : ℚ) = 0 := le_antisymm (by linarith) hi0
    rw [hn1, hiz]
    norm_num
  · rw [if_neg h1]
    have hn1 : (1 : ℚ) ≤ (n : ℚ) := by
      have : 1 ≤ n := by omega
      exact_mod_cast this
    have hmid : 0 < ((n : ℚ) - 1) / 2 := lt_of_le_of_ne (by linarith) (Ne.symm h1)
    have habs : |(i : ℚ) - ((n : ℚ) - 1) / 2| ≤ ((n : ℚ) - 1) / 2 := by
      rw [abs_le]
      constructor <;> [linarith; linarith]
    have hx1 : |(i : ℚ) - ((n : ℚ) - 1) / 2| / (((n : ℚ) - 1) / 2) ≤ 1 :=
      (div_le_one hmid).mpr habs
    have hx0 : 0 ≤ |(i : ℚ) - ((n : ℚ) - 1) / 2| / (((n : ℚ) - 1) / 2) :=
      div_nonneg (abs_nonneg _) (le_of_lt hmid)
    norm_num
    linarith

lemma uCurveWeights_length (n : ℕ) : (uCurveWeights n).length = n := by
  unfold uCurveWeights uCurveRawList
  split <;> simp_all

lemma uCurveRawList_sum_pos {n : ℕ} (h : 1 ≤ n) : 0 < (uCurveRawList n).sum := by
  apply List.sum_pos
  · intro x hx
    obtain ⟨i, hi, rfl⟩ := List.mem_map.mp hx
    have := uCurveRaw_lb (List.mem_range.mp hi)
    linarith
  · unfold uCurveRawList
    simp only [ne_eq, List.map_eq_nil_iff, List.range_eq_nil]
    omega

lemma uCurveNorm_eq {n : ℕ} (h : 1 ≤ n) : uCurveNorm n = (uCurveRawList n).sum := by
  unfold uCurveNorm
  rw [if_neg (ne_of_gt (uCurveRawList_sum_pos h))]

lemma uCurveWeights_sum (n : ℕ) (h : 1 ≤ n) : (uCurveWeights n).sum = 1 := by
  have hn : n ≠ 0 := by omega
  have hpos := uCurveRawList_sum_pos h
  unfold uCurveWeights
  rw [if_neg hn, uCurveNorm_eq h, list_sum_map_div]
  exact div_self (ne_of_gt hpos)

lemma uCurveWeights_nonneg (n : ℕ) : ∀ w ∈ uCurveWeights n, 0 ≤ w := by
  intro w hw
  unfold uCurveWeights at hw
  by_cases hn : n = 0
  · rw [if_pos hn] at hw
    simp at hw
  · rw [if_neg hn] at hw
    obtain ⟨x, hx, rfl⟩ := List.mem_map.mp hw
    obtain ⟨i, hi, rfl⟩ := List.mem_map.mp hx
    have h1 : 1 ≤ n := by omega
    have hlb := uCurveRaw_lb (List.mem_range.mp hi)
    rw [uCurveNorm_eq h1]
    exact div_nonneg (by linarith) (le_of_lt (uCurveRawList_sum_pos h1))

lemma uCurveWeights_get (n : ℕ) (hn : n ≠ 0) (i : ℕ) (h : i < (uCurveWeights n).length) :
    (uCurveWeights n).get ⟨i, h⟩ = uCurveRaw n i / uCurveNorm n := by
  rw [List.get_eq_getElem]
  have h2 : i < n := by rw [uCurveWeights_length] at h; exact h
  simp [uCurveWeights, if_neg hn, uCurveRawList, h2]

/- ==================== timeSlices lemmas ==================== -/

lemma timeSlices_length (start endT : ℤ) (step : ℕ) :
    (timeSlices start endT step).length = max 1 (((endT - start).toNat + step - 1) / step) := by
  unfold timeSlices
  rw [List.length_map, List.length_range]

lemma timeSlices_length_pos (start endT : ℤ) (step : ℕ) :
    1 ≤ (timeSlices start endT step).length := by
  rw [timeSlices_length]
  exact le_max_left 1 _

lemma timeSlices_ne_nil (start endT : ℤ) (step : ℕ) : timeSlices start endT step ≠ [] := by
  have := timeSlices_length_pos start endT step
  intro h
  rw [h] at this
  simp at this

lemma timeSlices_get (start endT : ℤ) (step : ℕ) (i : ℕ)
    (h : i < (timeSlices start endT step).length) :
    (timeSlices start endT step).get ⟨i, h⟩ =
      { s := addMinutes start ((i : ℤ) * (step : ℤ))
        e := if i = max 1 (((endT - start).toNat + step - 1) / step) - 1 then endT
             else addMinutes start (((i : ℤ) + 1) * (step : ℤ)) } := by
  rw [List.get_eq_getElem]
  unfold timeSlices
  rw [List.getElem_map, List.getElem_range]

/-- Every slice end is at most the session end, as long as the times are
canonical minutes of day and the step is positive. -/
lemma timeSlices_e_le (start endT : ℤ) (step : ℕ)
    (h0 : 0 ≤ start) (h1 : endT < 1440) (hs : 0 < step) :
    ∀ sl ∈ timeSlices start endT step, sl.e ≤ endT := by
  intro sl hsl
  unfold timeSlices at hsl
  simp only [List.mem_map, List.mem_range] at hsl
  obtain ⟨i, hi, rfl⟩ := hsl
  dsimp only
  split
  · exact le_refl endT
  next hlast =>
    by_cases hend : endT ≤ start
    · exfalso
      have hT0 : (endT - start).toNat = 0 := by omega
      rw [hT0] at hi hlast
      have hz : (0 + step - 1) / step = 0 := Nat.div_eq_of_lt (by omega)
      rw [hz] at hi hlast
      simp at hi hlast
      omega
    · push_neg at hend
      set T : ℕ := (endT - start).toNat with hT
      have hT1 : 1 ≤ T := by omega
      have hTZ : (T : ℤ) = endT - start := by omega
      have hc : max 1 ((T + step - 1) / step) = (T - 1) / step + 1 := by
        have he : T + step - 1 = (T - 1) + step := by omega
        rw [he, Nat.add_div_right _ hs]
        exact Nat.max_eq_right (Nat.le_add_left 1 _)
      rw [hc] at hi hlast
      have hmul : ((T - 1) / step) * step ≤ T - 1 := Nat.div_mul_le_self _ _
      have hi2 : i + 1 ≤ (T - 1) / step := by
        revert hi hlast
        generalize (T - 1) / step = d
        intro hi hlast
        omega
      have hstep : (i + 1) * step ≤ T - 1 := le_trans (Nat.mul_le_mul_right step hi2) hmul
      have hcast : ((i : ℤ) + 1) * (step : ℤ) ≤ (T : ℤ) - 1 := by
        have := hstep
        push_cast at this ⊢
        exact_mod_cast this
      have hge0 : (0 : ℤ) ≤ ((i : ℤ) + 1) * (step : ℤ) := by positivity
      unfold addMinutes
      rw [Int.emod_eq_of_lt (by omega) (by omega)]
      omega

/- ==================== plan weight lemmas ==================== -/

lemma planWeights_length (o : Order) : (planWeights o).length = (planSlices o).length := by
  unfold planWeights
  split
  · exact equalWeights_length _
  · exact uCurveWeights_length _

lemma planWeights_nonneg (o : Order) : ∀ w ∈ planWeights o, 0 ≤ w := by
  unfold planWeights
  split
  · exact equalWeights_nonneg _
  · exact uCurveWeights_nonneg _

lemma planWeights_sum (o : Order) : (planWeights o).sum = 1 := by
  have h := timeSlices_length_pos o.sessionStart o.sessionEnd o.intervalMins
  unfold planWeights
  split
  · exact equalWeights_sum _ h
  · exact uCurveWeights_sum _ h

lemma contVolPerSlice_length (o : Order) :
    (contVolPerSlice o).length = (planSlices o).length := by
  unfold contVolPerSlice
  rw [List.length_map]
  exact planWeights_length o

/- ==================== applyCap lemmas ==================== -/

lemma applyCap_nonneg (cm : CapMode) (mp : ℚ) (q v : ℤ) : 0 ≤ applyCap cm mp q v := by
  unfold applyCap
  cases cm <;> simp

lemma applyCap_le_max (cm : CapMode) (mp : ℚ) (q v : ℤ) : applyCap cm mp q v ≤ max 0 q := by
  unfold applyCap
  cases cm
  · exact le_refl _
  · exact max_le_max (le_refl 0) (min_le_left _ _)

lemma applyCap_le_cap (mp : ℚ) (q v : ℤ) (hmp : 0 ≤ mp) (hv : 0 ≤ v) :
    applyCap CapMode.PCT mp q v ≤ ⌊(v : ℚ) * mp / 100⌋ := by
  unfold applyCap
  simp only []
  have hfl : (0 : ℤ) ≤ ⌊(v : ℚ) * mp / 100⌋ := by
    apply Int.le_floor.mpr
    push_cast
    positivity
  exact max_le hfl (min_le_right _ _)

/- ==================== otdLoop lemmas ==================== -/

/-- Shape of the rows produced by the OTD walk: non negative suggested
quantities, non negative expected volumes, slice bounds taken from the
items, and the percent cap respected. -/
lemma otdLoop_rows (cm : CapMode) (mp : ℚ) (d : Bool) (t : ℤ) :
    ∀ (items : List (Slice × ℚ × ℤ)) (rem : ℤ), 0 ≤ rem →
      ∀ r ∈ otdLoop cm mp d t items rem,
        0 ≤ r.suggestedQty ∧ 0 ≤ r.expMktVol ∧
        (∃ it ∈ items, r.s = it.1.s ∧ r.e = it.1.e ∧ r.expMktVol = max 0 it.2.2) ∧
        (cm = CapMode.PCT → 0 ≤ mp → r.suggestedQty ≤ ⌊(r.expMktVol : ℚ) * mp / 100⌋) := by
  intro items
  induction items with
  | nil =>
    intro rem hrem r hr
    simp [otdLoop] at hr
  | cons hd tl ih =>
    intro rem hrem r hr
    obtain ⟨sl, w, vol⟩ := hd
    rw [otdLoop] at hr
    set sliceVol := max 0 vol with hsv
    set base := min ⌊w * (t : ℚ)⌋ rem with hbase
    set sug0 := applyCap cm mp base sliceVol with hsug0
    set sug1 := if d ∧ ¬tl.isEmpty ∧ rem - sug0 ≤ 0
                then max 0 (rem - otdKeepBack t) else sug0 with hsug1
    set sug := min sug1 rem with hsug
    have hsug1_nonneg : 0 ≤ sug1 := by
      rw [hsug1]
      split
      · exact le_max_left 0 _
      · exact applyCap_nonneg cm mp base sliceVol
    have hsug_nonneg : 0 ≤ sug := le_min hsug1_nonneg hrem
    have hsug_le_rem : sug ≤ rem := min_le_right _ _
    have hsv_nonneg : (0 : ℤ) ≤ sliceVol := le_max_left 0 vol
    have hcap : cm = CapMode.PCT → 0 ≤ mp → sug ≤ ⌊(sliceVol : ℚ) * mp / 100⌋ := by
      intro hcm hmp
      have hsug0_cap : sug0 ≤ ⌊(sliceVol : ℚ) * mp / 100⌋ := by
        rw [hsug0, hcm]
        exact applyCap_le_cap mp base sliceVol hmp hsv_nonneg
      rw [hsug1] at hsug
      by_cases hbr : d ∧ ¬tl.isEmpty ∧ rem - sug0 ≤ 0
      · rw [if_pos hbr] at hsug
        have h1 : rem ≤ sug0 := by omega
        have h2 : sug ≤ rem := by rw [hsug]; exact min_le_right _ _
        omega
      · rw [if_neg hbr] at hsug
        rw [hsug]
        exact le_trans (min_le_left _ _) hsug0_cap
    rcases List.mem_cons.mp hr with hhead | htail
    · subst hhead
      refine ⟨hsug_nonneg, hsv_nonneg, ⟨(sl, w, vol), List.mem_cons_self _ _, rfl, rfl, rfl⟩, hcap⟩
    · have := ih (rem - sug) (by omega) r htail
      refine ⟨this.1, this.2.1, ?_, this.2.2.2⟩
      obtain ⟨it, hit, hits⟩ := this.2.2.1
      exact ⟨it, List.mem_cons_of_mem _ hit, hits⟩

/-- Every prefix sum of the suggested quantities of the OTD walk is at most
the initial remaining quantity. -/
lemma otdLoop_take_sum_le (cm : CapMode) (mp : ℚ) (d : Bool) (t : ℤ) :
    ∀ (items : List (Slice × ℚ × ℤ)) (rem : ℤ), 0 ≤ rem → ∀ k : ℕ,
      (((otdLoop cm mp d t items rem).take k).map BuiltRow.suggestedQty).sum ≤ rem := by
  intro items
  induction items with
  | nil =>
    intro rem hrem k
    simp [otdLoop]
    exact hrem
  | cons hd tl ih =>
    intro rem hrem k
    obtain ⟨sl, w, vol⟩ := hd
    rw [otdLoop]
    cases k with
    | zero => simpa using hrem
    | succ k =>
      rw [List.take_succ_cons, List.map_cons, List.sum_cons]
      set sug1 := if d ∧ ¬tl.isEmpty ∧ rem - applyCap cm mp (min ⌊w * (t : ℚ)⌋ rem) (max 0 vol) ≤ 0
                  then max 0 (rem - otdKeepBack t)
                  else applyCap cm mp (min ⌊w * (t : ℚ)⌋ rem) (max 0 vol) with hsug1
      set sug := min sug1 rem with hsug
      have hsug_le_rem : sug ≤ rem := min_le_right _ _
      have hsug1_nonneg : 0 ≤ sug1 := by
        rw [hsug1]
        split
        · exact le_max_left 0 _
        · exact applyCap_nonneg _ _ _ _
      have hsug_nonneg : 0 ≤ sug := le_min hsug1_nonneg hrem
      have := ih (rem - sug) (by omega) k
      dsimp only
      omega

/-- The total of the suggested quantities of the OTD walk is at most the
initial remaining quantity. -/
lemma otdLoop_sum_le (cm : CapMode) (mp : ℚ) (d : Bool) (t : ℤ)
    (items : List (Slice × ℚ × ℤ)) (rem : ℤ) (hrem : 0 ≤ rem) :
    ((otdLoop cm mp d t items rem).map BuiltRow.suggestedQty).sum ≤ rem := by
  have h := otdLoop_take_sum_le cm mp d t items rem hrem (otdLoop cm mp d t items rem).length
  rwa [List.take_length] at h

/- ==================== trimLoop lemmas ==================== -/

/-- Each row after the trim comes from a row of the input with the same
bounds and volume and a smaller or equal, still non negative, suggested
quantity. -/
lemma trimLoop_mem (ex : ℤ) (hex : 0 ≤ ex) :
    ∀ (rows : List BuiltRow), (∀ r ∈ rows, 0 ≤ r.suggestedQty) →
      ∀ (need : ℤ) (r2 : BuiltRow), r2 ∈ trimLoop ex rows need →
        ∃ r1 ∈ rows, r2.s = r1.s ∧ r2.e = r1.e ∧ r2.expMktVol = r1.expMktVol ∧
          0 ≤ r2.suggestedQty ∧ r2.suggestedQty ≤ r1.suggestedQty := by
  intro rows
  induction rows with
  | nil =>
    intro hrows need r2 h
    simp [trimLoop] at h
  | cons hd tl ih =>
    intro hrows need r2 h
    have hhd : 0 ≤ hd.suggestedQty := hrows hd (List.mem_cons_self _ _)
    rw [trimLoop] at h
    split at h
    · exact ⟨r2, h, rfl, rfl, rfl, hrows r2 h, le_refl _⟩
    · rcases List.mem_cons.mp h with hh | ht
      · subst hh
        refine ⟨hd, List.mem_cons_self _ _, rfl, rfl, rfl, ?_, ?_⟩
        · show 0 ≤ hd.suggestedQty - min ex hd.suggestedQty
          have h1 : min ex hd.suggestedQty ≤ hd.suggestedQty := min_le_right _ _
          omega
        · show hd.suggestedQty - min ex hd.suggestedQty ≤ hd.suggestedQty
          have h1 : 0 ≤ min ex hd.suggestedQty := le_min hex hhd
          omega
      · obtain ⟨r1, hr1, hp⟩ := ih (fun r hr => hrows r (List.mem_cons_of_mem _ hr)) _ r2 ht
        exact ⟨r1, List.mem_cons_of_mem _ hr1, hp⟩

/- ==================== inline lemmas ==================== -/

lemma inlinePov_nonneg (o : Order) : 0 ≤ inlinePov o := by
  unfold inlinePov
  dsimp only
  split
  · exact le_min zero_le_one (div_nonneg (Nat.cast_nonneg _) (Nat.cast_nonneg _))
  · exact le_refl 0

lemma inlinePov_mul_le (o : Order) :
    ((o.expectedContVol : ℚ) + (o.expectedAuctionVol : ℚ)) * inlinePov o ≤ (o.orderQty : ℚ) := by
  unfold inlinePov
  dsimp only
  split
  next htot =>
    set tot : ℕ := o.currentVol + o.expectedContVol + o.expectedAuctionVol with htotdef
    have htotq : (0 : ℚ) < (tot : ℚ) := by exact_mod_cast htot
    have hle : ((o.expectedContVol : ℚ) + (o.expectedAuctionVol : ℚ)) ≤ (tot : ℚ) := by
      rw [htotdef]
      push_cast
      have : (0 : ℚ) ≤ (o.currentVol : ℚ) := Nat.cast_nonneg _
      linarith
    have hpov_nonneg : (0 : ℚ) ≤ min 1 ((o.orderQty : ℚ) / (tot : ℚ)) :=
      le_min zero_le_one (div_nonneg (Nat.cast_nonneg _) (le_of_lt htotq))
    calc ((o.expectedContVol : ℚ) + (o.expectedAuctionVol : ℚ)) * min 1 ((o.orderQty : ℚ) / (tot : ℚ))
        ≤ (tot : ℚ) * min 1 ((o.orderQty : ℚ) / (tot : ℚ)) :=
          mul_le_mul_of_nonneg_right hle hpov_nonneg
      _ ≤ (tot : ℚ) * ((o.orderQty : ℚ) / (tot : ℚ)) :=
          mul_le_mul_of_nonneg_left (min_le_right _ _) (le_of_lt htotq)
      _ = (o.orderQty : ℚ) := by
          field_simp
  · simp

/-- One INLINE row never suggests more than the slice volume times the
participation rate. -/
lemma inlineRow_le (cm : CapMode) (mp : ℚ) (pov : ℚ) (hpov : 0 ≤ pov)
    (it : Slice × ℚ × ℤ) :
    ((inlineRow cm mp pov it).suggestedQty : ℚ) ≤ ((max 0 it.2.2 : ℤ) : ℚ) * pov := by
  unfold inlineRow
  dsimp only
  set v := max 0 it.2.2 with hv
  have hv0 : (0 : ℤ) ≤ v := le_max_left _ _
  have hvq : (0 : ℚ) ≤ ((v : ℤ) : ℚ) * pov := by
    apply mul_nonneg _ hpov
    exact_mod_cast hv0
  have hb0 : (0 : ℤ) ≤ ⌊((v : ℤ) : ℚ) * pov⌋ := Int.le_floor.mpr (by simpa using hvq)
  have h1 : applyCap cm mp ⌊((v : ℤ) : ℚ) * pov⌋ v ≤ max 0 ⌊((v : ℤ) : ℚ) * pov⌋ :=
    applyCap_le_max _ _ _ _
  have h2 : max 0 ⌊((v : ℤ) : ℚ) * pov⌋ = ⌊((v : ℤ) : ℚ) * pov⌋ := max_eq_right hb0
  have h3 : applyCap cm mp ⌊((v : ℤ) : ℚ) * pov⌋ v ≤ ⌊((v : ℤ) : ℚ) * pov⌋ := by omega
  calc (applyCap cm mp ⌊((v : ℤ) : ℚ) * pov⌋ v : ℚ) ≤ (⌊((v : ℤ) : ℚ) * pov⌋ : ℚ) := by
        exact_mod_cast h3
    _ ≤ ((v : ℤ) : ℚ) * pov := Int.floor_le _

lemma list_sum_map_mul_right (l : List (Slice × ℚ × ℤ)) (f : Slice × ℚ × ℤ → ℚ) (c : ℚ) :
    (l.map (fun x => f x * c)).sum = (l.map f).sum * c := by
  induction l with
  | nil => simp
  | cons a t ih => simp [ih, add_mul]

lemma planItems_map_snd_snd (o : Order) :
    (planItems o).map (fun it => it.2.2) = contVolPerSlice o := by
  unfold planItems
  have h1 : ((planWeights o).zip (contVolPerSlice o)).length ≤ (planSlices o).length := by
    rw [List.length_zip, planWeights_length, contVolPerSlice_length]
    omega
  have h2 : (contVolPerSlice o).length ≤ (planWeights o).length := by
    rw [planWeights_length, contVolPerSlice_length]
  rw [show (fun (it : Slice × ℚ × ℤ) => it.2.2) =
        (Prod.snd : ℚ × ℤ → ℤ) ∘ (Prod.snd : Slice × ℚ × ℤ → ℚ × ℤ) from rfl]
  rw [← List.map_map, List.map_snd_zip _ _ h1, List.map_snd_zip _ _ h2]

lemma contVol_sum_le (o : Order) :
    ((contVolPerSlice o).map (fun v => ((max 0 v : ℤ) : ℚ))).sum ≤ (o.expectedContVol : ℚ) := by
  unfold contVolPerSlice
  rw [List.map_map]
  have hpt : ∀ w ∈ planWeights o,
      ((fun v => ((max 0 v : ℤ) : ℚ)) ∘ fun w => ⌊w * (o.expectedContVol : ℚ)⌋) w ≤
        w * (o.expectedContVol : ℚ) := by
    intro w hw
    have hw0 := planWeights_nonneg o w hw
    have hwe : (0 : ℚ) ≤ w * (o.expectedContVol : ℚ) :=
      mul_nonneg hw0 (Nat.cast_nonneg _)
    simp only [Function.comp]
    push_cast
    have h1 : (⌊w * (o.expectedContVol : ℚ)⌋ : ℚ) ≤ w * (o.expectedContVol : ℚ) :=
      Int.floor_le _
    have h2 : max (0 : ℚ) (⌊w * (o.expectedContVol : ℚ)⌋ : ℚ) ≤
        max 0 (w * (o.expectedContVol : ℚ)) := max_le_max (le_refl 0) h1
    rw [max_eq_right hwe] at h2
    exact h2
  calc ((planWeights o).map
          ((fun v => ((max 0 v : ℤ) : ℚ)) ∘ fun w => ⌊w * (o.expectedContVol : ℚ)⌋)).sum
      ≤ ((planWeights o).map (fun w => w * (o.expectedContVol : ℚ))).sum :=
        List.sum_le_sum hpt
    _ = (planWeights o).sum * (o.expectedContVol : ℚ) := by
        induction planWeights o with
        | nil => simp
        | cons a t ih => simp [ih, add_mul]
    _ = (o.expectedContVol : ℚ) := by rw [planWeights_sum o, one_mul]

lemma inline_cont_le (o : Order) :
    ((((inlineRows o).map BuiltRow.suggestedQty).sum : ℤ) : ℚ) ≤
      (o.expectedContVol : ℚ) * inlinePov o := by
  unfold inlineRows
  rw [List.map_map, intCast_list_sum, List.map_map]
  have hpt : ∀ it ∈ planItems o,
      ((fun x : ℤ => (x : ℚ)) ∘ BuiltRow.suggestedQty ∘
        inlineRow o.capMode o.maxPart (inlinePov o)) it ≤
        ((max 0 it.2.2 : ℤ) : ℚ) * inlinePov o := by
    intro it _
    exact inlineRow_le _ _ _ (inlinePov_nonneg o) it
  calc ((planItems o).map ((fun x : ℤ => (x : ℚ)) ∘ BuiltRow.suggestedQty ∘
          inlineRow o.capMode o.maxPart (inlinePov o))).sum
      ≤ ((planItems o).map (fun it => ((max 0 it.2.2 : ℤ) : ℚ) * inlinePov o)).sum :=
        List.sum_le_sum hpt
    _ = ((planItems o).map (fun it => ((max 0 it.2.2 : ℤ) : ℚ))).sum * inlinePov o :=
        list_sum_map_mul_right _ _ _
    _ ≤ (o.expectedContVol : ℚ) * inlinePov o := by
        apply mul_le_mul_of_nonneg_right _ (inlinePov_nonneg o)
        have hmaps : (planItems o).map (fun it => ((max 0 it.2.2 : ℤ) : ℚ)) =
            (contVolPerSlice o).map (fun v => ((max 0 v : ℤ) : ℚ)) := by
          rw [show (fun (it : Slice × ℚ × ℤ) => ((max 0 it.2.2 : ℤ) : ℚ)) =
                (fun v : ℤ => ((max 0 v : ℤ) : ℚ)) ∘ (fun it => it.2.2) from rfl]
          rw [← List.map_map, planItems_map_snd_snd]
        rw [hmaps]
        exact contVol_sum_le o

lemma inline_auction_le (o : Order) (h : o.capMode = CapMode.PCT → o.maxPart ≤ 100) :
    ((inlineAuctionPlanned o : ℤ) : ℚ) ≤ (o.expectedAuctionVol : ℚ) * inlinePov o := by
  unfold inlineAuctionPlanned
  split
  next hc =>
    have hmp := h hc
    have hap : (0 : ℚ) ≤ (o.expectedAuctionVol : ℚ) * inlinePov o :=
      mul_nonneg (Nat.cast_nonneg _) (inlinePov_nonneg o)
    calc ((⌊(o.expectedAuctionVol : ℚ) * inlinePov o * o.maxPart / 100⌋ : ℤ) : ℚ)
        ≤ (o.expectedAuctionVol : ℚ) * inlinePov o * o.maxPart / 100 := Int.floor_le _
      _ ≤ (o.expectedAuctionVol : ℚ) * inlinePov o := by
          have hnn : (0 : ℚ) ≤
              (o.expectedAuctionVol : ℚ) * inlinePov o * (100 - o.maxPart) :=
            mul_nonneg hap (by linarith)
          nlinarith [hnn]
  next => exact Int.floor_le _

/-- With valid inputs and a percent cap of at most 100 the INLINE branch
never plans more than the order quantity before the excess step, so the
excess step is dead. -/
lemma inline_no_overshoot (o : Order) (h : o.capMode = CapMode.PCT → o.maxPart ≤ 100) :
    ((inlineRows o).map BuiltRow.suggestedQty).sum + inlineAuctionPlanned o ≤
      (o.orderQty : ℤ) := by
  have h1 := inline_cont_le o
  have h2 := inline_auction_le o h
  have h3 := inlinePov_mul_le o
  have hq : ((((inlineRows o).map BuiltRow.suggestedQty).sum + inlineAuctionPlanned o : ℤ) : ℚ)
      ≤ (o.orderQty : ℚ) := by
    push_cast
    push_cast at h1 h2
    nlinarith [h1, h2, h3]
  exact_mod_cast hq

/- ==================== accumRows lemmas ==================== -/

lemma accumRows_nonneg :
    ∀ (rows : List BuiltRow), (∀ r ∈ rows, 0 ≤ r.suggestedQty) →
      ∀ now : ℤ, 0 ≤ accumRows rows now := by
  intro rows
  induction rows with
  | nil =>
    intro _ now
    simp [accumRows]
  | cons r rest ih =>
    intro h now
    have hq := h r (List.mem_cons_self _ _)
    have hrest := ih (fun x hx => h x (List.mem_cons_of_mem _ hx)) now
    rw [accumRows]
    split
    · omega
    · split
      · dsimp only
        apply Int.le_floor.mpr
        rw [Int.cast_zero]
        apply mul_nonneg
        · exact_mod_cast hq
        · exact le_min zero_le_one (le_max_left 0 _)
      · exact le_refl 0

lemma accumRows_partial_le (r : BuiltRow) (now : ℤ) (hq : 0 ≤ r.suggestedQty) :
    ⌊(r.suggestedQty : ℚ) *
      min 1 (max 0 (((max 0 (minutesBetween r.s now) : ℤ) : ℚ) /
        ((max 1 (minutesBetween r.s r.e) : ℤ) : ℚ)))⌋ ≤ r.suggestedQty := by
  have h1 : (r.suggestedQty : ℚ) *
      min 1 (max 0 (((max 0 (minutesBetween r.s now) : ℤ) : ℚ) /
        ((max 1 (minutesBetween r.s r.e) : ℤ) : ℚ))) ≤ (r.suggestedQty : ℚ) := by
    apply mul_le_of_le_one_right
    · exact_mod_cast hq
    · exact min_le_left _ _
  calc ⌊(r.suggestedQty : ℚ) * _⌋ ≤ ⌊(r.suggestedQty : ℚ)⌋ := Int.floor_le_floor h1
    _ = r.suggestedQty := Int.floor_intCast _

/-- The accumulated target is monotone in the clock for any row list with
non negative suggested quantities. -/
lemma accumRows_mono :
    ∀ (rows : List BuiltRow), (∀ r ∈ rows, 0 ≤ r.suggestedQty) →
      ∀ (n1 n2 : ℤ), n1 ≤ n2 → accumRows rows n1 ≤ accumRows rows n2 := by
  intro rows
  induction rows with
  | nil =>
    intro _ n1 n2 _
    simp [accumRows]
  | cons r rest ih =>
    intro h n1 n2 h12
    have hq := h r (List.mem_cons_self _ _)
    have hrest := fun x hx => h x (List.mem_cons_of_mem _ hx)
    rw [accumRows, accumRows]
    by_cases hA : r.e ≤ n1
    · rw [if_pos hA, if_pos (le_trans hA h12)]
      have := ih hrest n1 n2 h12
      omega
    · rw [if_neg hA]
      by_cases hB : r.e ≤ n2
      · rw [if_pos hB]
        have hnn := accumRows_nonneg rest hrest n2
        have hle : (if withinSlice n1 r.s r.e then
            ⌊(r.suggestedQty : ℚ) *
              min 1 (max 0 (((max 0 (minutesBetween r.s n1) : ℤ) : ℚ) /
                ((max 1 (minutesBetween r.s r.e) : ℤ) : ℚ)))⌋
            else 0) ≤ r.suggestedQty := by
          split
          · exact accumRows_partial_le r n1 hq
          · exact hq
        dsimp only at hle ⊢
        omega
      · rw [if_neg hB]
        by_cases hC : withinSlice n1 r.s r.e
        · have hC2 : withinSlice n2 r.s r.e := by
            constructor
            · exact le_trans hC.1 h12
            · omega
          rw [if_pos hC, if_pos hC2]
          dsimp only
          apply Int.floor_le_floor
          apply mul_le_mul_of_nonneg_left _ (by exact_mod_cast hq)
          apply min_le_min (le_refl 1)
          apply max_le_max (le_refl 0)
          have hlen : (0 : ℚ) < ((max 1 (minutesBetween r.s r.e) : ℤ) : ℚ) := by
            have : (1 : ℤ) ≤ max 1 (minutesBetween r.s r.e) := le_max_left _ _
            exact_mod_cast lt_of_lt_of_le zero_lt_one (by exact_mod_cast this)
          apply div_le_div_of_nonneg_right ?_ hlen.le
          case _ =>
            have : max 0 (minutesBetween r.s n1) ≤ max 0 (minutesBetween r.s n2) := by
              unfold minutesBetween
              omega
            exact_mod_cast this
        · rw [if_neg hC]
          split
          · apply Int.le_floor.mpr
            rw [Int.cast_zero]
            apply mul_nonneg
            · exact_mod_cast hq
            · exact le_min zero_le_one (le_max_left 0 _)
          · exact le_refl 0

/-- Once the clock is past every row end, the accumulated target is the sum
of the suggested quantities. -/
lemma accumRows_total :
    ∀ (rows : List BuiltRow) (now : ℤ), (∀ r ∈ rows, r.e ≤ now) →
      accumRows rows now = (rows.map BuiltRow.suggestedQty).sum := by
  intro rows
  induction rows with
  | nil =>
    intro now _
    simp [accumRows]
  | cons r rest ih =>
    intro now h
    rw [accumRows, if_pos (h r (List.mem_cons_self _ _)), List.map_cons, List.sum_cons,
      ih now (fun x hx => h x (List.mem_cons_of_mem _ hx))]

/- ==================== buildPlan row lemmas ==================== -/

lemma inlineRow_nonneg (cm : CapMode) (mp pov : ℚ) (it : Slice × ℚ × ℤ) :
    0 ≤ (inlineRow cm mp pov it).suggestedQty :=
  applyCap_nonneg _ _ _ _

lemma inlineRow_vol_nonneg (cm : CapMode) (mp pov : ℚ) (it : Slice × ℚ × ℤ) :
    0 ≤ (inlineRow cm mp pov it).expMktVol :=
  le_max_left _ _

lemma inlineRow_cap (mp pov : ℚ) (it : Slice × ℚ × ℤ) (hmp : 0 ≤ mp) :
    (inlineRow CapMode.PCT mp pov it).suggestedQty ≤
      ⌊((inlineRow CapMode.PCT mp pov it).expMktVol : ℚ) * mp / 100⌋ :=
  applyCap_le_cap mp _ _ hmp (le_max_left _ _)

lemma buildPlan_rows_nonneg (o : Order) : ∀ r ∈ (buildPlan o).rows, 0 ≤ r.suggestedQty := by
  intro r hr
  have hbase : ∀ x ∈ inlineRows o, 0 ≤ x.suggestedQty := by
    intro x hx
    obtain ⟨it, _, rfl⟩ := List.mem_map.mp hx
    exact inlineRow_nonneg _ _ _ it
  unfold buildPlan at hr
  split at hr
  · unfold buildPlanOTD at hr
    dsimp only at hr
    have ht : (0 : ℤ) ≤ otdTarget o := le_max_left _ _
    exact (otdLoop_rows _ _ _ _ (planItems o) _ ht r hr).1
  · unfold buildPlanInline at hr
    split at hr
    next hover =>
      split at hr
      · dsimp only at hr
        rw [List.mem_reverse] at hr
        have hex : (0 : ℤ) ≤ inlineExcess o := by
          unfold inlineExcess
          omega
        obtain ⟨r1, _, _, _, _, hnn, _⟩ :=
          trimLoop_mem _ hex _ (fun x hx => hbase x (List.mem_reverse.mp hx)) _ r hr
        exact hnn
      · exact hbase r hr
    · exact hbase r hr

lemma buildPlan_rows_cap (o : Order) (hcap : o.capMode = CapMode.PCT) (hmp : 0 ≤ o.maxPart) :
    ∀ r ∈ (buildPlan o).rows,
      r.suggestedQty ≤ ⌊(r.expMktVol : ℚ) * o.maxPart / 100⌋ := by
  intro r hr
  have hbase : ∀ x ∈ inlineRows o,
      x.suggestedQty ≤ ⌊(x.expMktVol : ℚ) * o.maxPart / 100⌋ := by
    intro x hx
    obtain ⟨it, _, rfl⟩ := List.mem_map.mp hx
    rw [hcap]
    exact inlineRow_cap _ _ it hmp
  have hbase0 : ∀ x ∈ inlineRows o, 0 ≤ x.suggestedQty := by
    intro x hx
    obtain ⟨it, _, rfl⟩ := List.mem_map.mp hx
    exact inlineRow_nonneg _ _ _ it
  unfold buildPlan at hr
  split at hr
  · unfold buildPlanOTD at hr
    dsimp only at hr
    have ht : (0 : ℤ) ≤ otdTarget o := le_max_left _ _
    exact (otdLoop_rows _ _ _ _ (planItems o) _ ht r hr).2.2.2 hcap hmp
  · unfold buildPlanInline at hr
    split at hr
    next hover =>
      split at hr
      · dsimp only at hr
        rw [List.mem_reverse] at hr
        have hex : (0 : ℤ) ≤ inlineExcess o := by
          unfold inlineExcess
          omega
        obtain ⟨r1, hr1, _, _, hvol, _, hle⟩ :=
          trimLoop_mem _ hex _ (fun x hx => hbase0 x (List.mem_reverse.mp hx)) _ r hr
        have := hbase r1 (List.mem_reverse.mp hr1)
        rw [hvol]
        omega
      · exact hbase r hr
    · exact hbase r hr

lemma buildPlan_rows_e (o : Order) :
    ∀ r ∈ (buildPlan o).rows, ∃ sl ∈ planSlices o, r.e = sl.e := by
  intro r hr
  have hbase : ∀ x ∈ inlineRows o, ∃ sl ∈ planSlices o, x.e = sl.e := by
    intro x hx
    obtain ⟨it, hit, rfl⟩ := List.mem_map.mp hx
    obtain ⟨sl, w, vol⟩ := it
    have := (List.of_mem_zip hit).1
    exact ⟨sl, this, rfl⟩
  have hbase0 : ∀ x ∈ inlineRows o, 0 ≤ x.suggestedQty := by
    intro x hx
    obtain ⟨it, _, rfl⟩ := List.mem_map.mp hx
    exact inlineRow_nonneg _ _ _ it
  unfold buildPlan at hr
  split at hr
  · unfold buildPlanOTD at hr
    dsimp only at hr
    have ht : (0 : ℤ) ≤ otdTarget o := le_max_left _ _
    obtain ⟨it, hit, _, he, _⟩ := (otdLoop_rows _ _ _ _ (planItems o) _ ht r hr).2.2.1
    obtain ⟨sl, w, vol⟩ := it
    exact ⟨sl, (List.of_mem_zip hit).1, he⟩
  · unfold buildPlanInline at hr
    split at hr
    next hover =>
      split at hr
      · dsimp only at hr
        rw [List.mem_reverse] at hr
        have hex : (0 : ℤ) ≤ inlineExcess o := by
          unfold inlineExcess
          omega
        obtain ⟨r1, hr1, _, he, _, _, _⟩ :=
          trimLoop_mem _ hex _ (fun x hx => hbase0 x (List.mem_reverse.mp hx)) _ r hr
        obtain ⟨sl, hsl, he1⟩ := hbase r1 (List.mem_reverse.mp hr1)
        exact ⟨sl, hsl, he.trans he1⟩
      · exact hbase r hr
    · exact hbase r hr

/-- Whenever the INLINE trim cannot fire (valid cap, or no defer), the
returned contPlanned is the sum of the returned row quantities. -/
lemma buildPlan_cont_eq_sum (o : Order)
    (h : o.execMode ≠ ExecMode.OTD → o.deferCompletion = true →
          o.capMode = CapMode.PCT → o.maxPart ≤ 100) :
    (buildPlan o).contPlanned = ((buildPlan o).rows.map BuiltRow.suggestedQty).sum := by
  unfold buildPlan
  split
  next hm => rfl
  next hm =>
    unfold buildPlanInline
    split
    next hover =>
      split
      next hdef =>
        exfalso
        have hno := inline_no_overshoot o (h hm hdef)
        unfold inlineTotalPlanned inlineContPlanned at hover
        omega
      next => rfl
    next => rfl

/- ==================== no overallocation lemmas ==================== -/

lemma reserveAuctionQty_le (o : Order) (hres : o.reserveAuctionPct ≤ 100) :
    reserveAuctionQty o ≤ (o.orderQty : ℤ) := by
  unfold reserveAuctionQty
  have hq : (0 : ℚ) ≤ (o.orderQty : ℚ) := Nat.cast_nonneg _
  have hle : (o.orderQty : ℚ) * o.reserveAuctionPct / 100 ≤ (o.orderQty : ℚ) := by
    nlinarith
  calc ⌊(o.orderQty : ℚ) * o.reserveAuctionPct / 100⌋ ≤ ⌊(o.orderQty : ℚ)⌋ :=
        Int.floor_le_floor hle
    _ = (o.orderQty : ℤ) := Int.floor_natCast _

lemma buildPlanOTD_total_le (o : Order) (hres : o.reserveAuctionPct ≤ 100) :
    (buildPlanOTD o).contPlanned + (buildPlanOTD o).auctionPlanned ≤ (o.orderQty : ℤ) := by
  have ht : (0 : ℤ) ≤ otdTarget o := le_max_left _ _
  have hcont : otdContPlanned o ≤ otdTarget o := otdLoop_sum_le _ _ _ _ _ _ ht
  have hres_le := reserveAuctionQty_le o hres
  have htar : otdTarget o = (o.orderQty : ℤ) - reserveAuctionQty o := by
    unfold otdTarget
    exact max_eq_right (by omega)
  unfold buildPlanOTD
  dsimp only
  have h1 : min (reserveAuctionQty o + max 0 (otdTarget o - otdContPlanned o))
      (auctionAllowedOf o) ≤ reserveAuctionQty o + max 0 (otdTarget o - otdContPlanned o) :=
    min_le_left _ _
  have h2 : max 0 (otdTarget o - otdContPlanned o) = otdTarget o - otdContPlanned o :=
    max_eq_right (by omega)
  omega

lemma inlineContPlanned_le (o : Order) : inlineContPlanned o ≤ (o.orderQty : ℤ) := by
  have hcont := inline_cont_le o
  have h3 := inlinePov_mul_le o
  have hA : (0 : ℚ) ≤ (o.expectedAuctionVol : ℚ) * inlinePov o :=
    mul_nonneg (Nat.cast_nonneg _) (inlinePov_nonneg o)
  have hq : ((inlineContPlanned o : ℤ) : ℚ) ≤ (o.orderQty : ℚ) := by
    unfold inlineContPlanned
    nlinarith [hcont]
  exact_mod_cast hq

lemma buildPlanInline_total_le (o : Order)
    (h : o.deferCompletion = true → o.capMode = CapMode.PCT → o.maxPart ≤ 100) :
    (buildPlanInline o).contPlanned + (buildPlanInline o).auctionPlanned ≤
      (o.orderQty : ℤ) := by
  unfold buildPlanInline
  split
  next hover =>
    split
    next hdef =>
      exfalso
      have hno := inline_no_overshoot o (h hdef)
      unfold inlineTotalPlanned inlineContPlanned at hover
      omega
    next hdef =>
      dsimp only
      have hcq := inlineContPlanned_le o
      unfold inlineExcess inlineTotalPlanned
      omega
  next hover =>
    dsimp only
    unfold inlineTotalPlanned at hover
    omega

/- ==================== ceiling bridge ==================== -/

/-- The natural ceiling division (a + b - 1) / b agrees with the rational
ceiling of a / b for b > 0, the form Math.ceil uses. -/
lemma ceil_div_bridge (a b : ℕ) (hb : 0 < b) :
    (((a + b - 1) / b : ℕ) : ℤ) = ⌈(a : ℚ) / (b : ℚ)⌉ := by
  have hbq : (0 : ℚ) < (b : ℚ) := by exact_mod_cast hb
  symm
  rw [Int.ceil_eq_iff]
  set m : ℕ := (a + b - 1) / b with hm
  have h1 : a + b - 1 < m * b + b := by
    have h := Nat.lt_div_mul_add (a := a + b - 1) hb
    rw [← hm] at h
    exact h
  have h2 : m * b ≤ a + b - 1 := by
    have h := Nat.div_mul_le_self (a + b - 1) b
    rw [← hm] at h
    exact h
  zify [show 1 ≤ a + b by omega] at h1 h2
  constructor
  · have hq : (m : ℚ) * b ≤ (a : ℚ) + b - 1 := by exact_mod_cast h2
    push_cast
    rw [lt_div_iff₀ hbq]
    nlinarith [hq]
  · have hz : (a : ℤ) ≤ m * b := by linarith
    have hq : (a : ℚ) ≤ (m : ℚ) * b := by exact_mod_cast hz
    push_cast
    rw [div_le_iff₀ hbq]
    linarith

/-- Integer characterization of the pacing tag of the StatusHUD. -/
lemma pacingTag_char (e a : ℤ) :
    pacingTag e a = if 0 < a ∧ 8 * a < (e - a) * 100 then PacingTag.AHEAD
      else if 0 < a ∧ (e - a) * 100 < -(8 * a) then PacingTag.BEHIND
      else PacingTag.ON_TRACK := by
  unfold pacingTag pacingPct
  by_cases ha : 0 < a
  · have haq : (0 : ℚ) < (a : ℚ) := by exact_mod_cast ha
    have h1 : (8 : ℚ) < ((e : ℚ) - (a : ℚ)) / (a : ℚ) * 100 ↔ 8 * a < (e - a) * 100 := by
      rw [div_mul_eq_mul_div, lt_div_iff₀ haq]
      constructor
      · intro hx
        have hx2 : ((8 * a : ℤ) : ℚ) < (((e - a) * 100 : ℤ) : ℚ) := by push_cast; linarith
        exact_mod_cast hx2
      · intro hx
        have hx2 : ((8 * a : ℤ) : ℚ) < (((e - a) * 100 : ℤ) : ℚ) := by exact_mod_cast hx
        push_cast at hx2
        linarith
    have h2 : ((e : ℚ) - (a : ℚ)) / (a : ℚ) * 100 < -8 ↔ (e - a) * 100 < -(8 * a) := by
      rw [div_mul_eq_mul_div, div_lt_iff₀ haq]
      constructor
      · intro hx
        have hx2 : (((e - a) * 100 : ℤ) : ℚ) < ((-(8 * a) : ℤ) : ℚ) := by push_cast; linarith
        exact_mod_cast hx2
      · intro hx
        have hx2 : (((e - a) * 100 : ℤ) : ℚ) < ((-(8 * a) : ℤ) : ℚ) := by exact_mod_cast hx
        push_cast at hx2
        linarith
    rw [if_pos ha]
    by_cases hA : (8 : ℚ) < ((e : ℚ) - (a : ℚ)) / (a : ℚ) * 100
    · rw [if_pos hA, if_pos ⟨ha, h1.mp hA⟩]
    · rw [if_neg hA, if_neg (fun hh : 0 < a ∧ 8 * a < (e - a) * 100 => hA (h1.mpr hh.2))]
      by_cases hB : ((e : ℚ) - (a : ℚ)) / (a : ℚ) * 100 < -8
      · rw [if_pos hB, if_pos ⟨ha, h2.mp hB⟩]
      · rw [if_neg hB,
          if_neg (fun hh : 0 < a ∧ (e - a) * 100 < -(8 * a) => hB (h2.mpr hh.2))]
  · rw [if_neg ha]
    rw [if_neg (by norm_num : ¬(8 : ℚ) < 0), if_neg (by norm_num : ¬(0 : ℚ) < -8)]
    rw [if_neg (fun hh : 0 < a ∧ 8 * a < (e - a) * 100 => ha hh.1),
      if_neg (fun hh : 0 < a ∧ (e - a) * 100 < -(8 * a) => ha hh.1)]

/- ==================== claim theorems ==================== -/

/-- C1, counterexample: for overReserveOrder, whose reserveForAuctionPct is
200, buildPlan returns continuousPlanned + auctionPlanned = 200 against an
order quantity of 100, so the invariant fails for some order with
reserveForAuctionPct ≥ 0. -/
theorem claim1_counterexample :
    ¬((buildPlan overReserveOrder).contPlanned + (buildPlan overReserveOrder).auctionPlanned ≤
      (overReserveOrder.orderQty : ℤ)) := by
  have hs1 : planSlices overReserveOrder = [{ s := 570, e := 630 }] := by decide
  have hw1 : planWeights overReserveOrder = [1] := by
    rw [planWeights, hs1]
    norm_num [overReserveOrder, testOrder, equalWeights]
  have hc1 : contVolPerSlice overReserveOrder = [0] := by
    rw [contVolPerSlice, hw1]
    norm_num [overReserveOrder, testOrder]
  have hi1 : planItems overReserveOrder = [({ s := 570, e := 630 }, 1, 0)] := by
    rw [planItems, hs1, hw1, hc1]
    rfl
  have htar : otdTarget overReserveOrder = 0 := by
    rw [otdTarget, reserveAuctionQty]
    norm_num [overReserveOrder, testOrder]
  have hcp : otdContPlanned overReserveOrder = 0 := by
    rw [otdContPlanned, otdRows, hi1, htar, otdLoop, otdLoop]
    norm_num [applyCap, rowMaxAllowed, otdKeepBack, overReserveOrder, testOrder]
  have hresq : reserveAuctionQty overReserveOrder = 200 := by
    rw [reserveAuctionQty]
    norm_num [overReserveOrder, testOrder]
  have hall : auctionAllowedOf overReserveOrder = 500 := by
    rw [auctionAllowedOf]
    norm_num [overReserveOrder, testOrder]
    decide
  rw [buildPlan, if_pos (show overReserveOrder.execMode = ExecMode.OTD from rfl), buildPlanOTD]
  dsimp only
  rw [hcp, hresq, hall, htar]
  norm_num [overReserveOrder, testOrder]

/-- C1, amended: for every Order, continuousPlanned + auctionPlanned never
exceeds orderQty provided reserveForAuctionPct is at most 100 and, in
PARTICIPATION mode with deferCompletion set and a PERCENT_OF_VOLUME cap,
maxParticipationPct is at most 100. -/
theorem claim1_no_overallocation (o : Order)
    (hres : o.reserveAuctionPct ≤ 100)
    (hmp : o.execMode = ExecMode.INLINE → o.deferCompletion = true →
      o.capMode = CapMode.PCT → o.maxPart ≤ 100) :
    (buildPlan o).contPlanned + (buildPlan o).auctionPlanned ≤ (o.orderQty : ℤ) := by
  unfold buildPlan
  split
  next hm => exact buildPlanOTD_total_le o hres
  next hm =>
    have hm2 : o.execMode = ExecMode.INLINE := by
      cases hx : o.execMode
      · exact absurd hx hm
      · rfl
    exact buildPlanInline_total_le o (hmp hm2)

/-- C1, witness at the concrete test order. -/
theorem claim1_witness :
    (buildPlan testOrder).contPlanned + (buildPlan testOrder).auctionPlanned ≤
      (testOrder.orderQty : ℤ) :=
  claim1_no_overallocation testOrder (by norm_num [testOrder])
    (fun h => absurd h (by simp [testOrder]))

/-- C2: with a PERCENT_OF_VOLUME cap and a non negative participation
percentage, every plan row has 0 ≤ suggestedQty and suggestedQty at most
floor (expectedVolume times maxParticipationPct over 100). -/
theorem claim2_cap_enforcement (o : Order) (hcap : o.capMode = CapMode.PCT)
    (hmp : 0 ≤ o.maxPart) :
    ∀ r ∈ (buildPlan o).rows,
      0 ≤ r.suggestedQty ∧ r.suggestedQty ≤ ⌊(r.expMktVol : ℚ) * o.maxPart / 100⌋ :=
  fun r hr => ⟨buildPlan_rows_nonneg o r hr, buildPlan_rows_cap o hcap hmp r hr⟩

/-- C2, witness: the first row of the plan of the concrete test order, whose
cap is 15 percent. -/
theorem claim2_witness :
    0 ≤ ((buildPlan capWitnessOrder).rows.headI).suggestedQty ∧
      ((buildPlan capWitnessOrder).rows.headI).suggestedQty ≤
        ⌊(((buildPlan capWitnessOrder).rows.headI).expMktVol : ℚ) *
          capWitnessOrder.maxPart / 100⌋ := by
  have hs1 : planSlices capWitnessOrder = [{ s := 570, e := 630 }] := by decide
  have hw1 : planWeights capWitnessOrder = [1] := by
    rw [planWeights, hs1]
    norm_num [capWitnessOrder, testOrder, equalWeights]
  have hc1 : contVolPerSlice capWitnessOrder = [600] := by
    rw [contVolPerSlice, hw1]
    norm_num [capWitnessOrder, testOrder]
  have hi1 : planItems capWitnessOrder = [({ s := 570, e := 630 }, 1, 600)] := by
    rw [planItems, hs1, hw1, hc1]
    rfl
  have htar : otdTarget capWitnessOrder = 900 := by
    rw [otdTarget, reserveAuctionQty]
    norm_num [capWitnessOrder, testOrder]
  have heval : (buildPlan capWitnessOrder).rows =
      [{ s := 570, e := 630, expMktVol := 600, maxAllowed := some 90, suggestedQty := 90 }] := by
    rw [buildPlan, if_pos (show capWitnessOrder.execMode = ExecMode.OTD from rfl)]
    show otdRows capWitnessOrder = _
    rw [otdRows, hi1, htar, otdLoop, otdLoop]
    norm_num [capWitnessOrder, testOrder, applyCap, rowMaxAllowed, otdKeepBack]
  exact claim2_cap_enforcement capWitnessOrder rfl (by norm_num [capWitnessOrder, testOrder]) _
    (by rw [heval]; exact List.mem_cons_self _ _)

/-- C3: in OTD mode buildPlan builds its rows by the remaining driven walk
seeded with the spec continuous target max 0 (orderQty minus
floor (orderQty times reserveForAuctionPct over 100)), computed before
slicing; and for one million shares with a 10 percent reserve that target
is 900000. -/
theorem claim3_reserve_before_slice :
    (∀ o : Order, o.execMode = ExecMode.OTD →
        (buildPlan o).rows =
          otdLoop o.capMode o.maxPart o.deferCompletion (specContinuousTarget o)
            (planItems o) (specContinuousTarget o))
    ∧ (∀ o : Order, o.orderQty = 1000000 → o.reserveAuctionPct = 10 →
        specContinuousTarget o = 900000) := by
  constructor
  · intro o h
    unfold buildPlan
    rw [if_pos h]
    rfl
  · intro o h1 h2
    unfold specContinuousTarget specReserveQty
    rw [h1, h2]
    norm_num

/-- C3, witness at a concrete one million share OTD order. -/
theorem claim3_witness :
    (buildPlan otdMillionOrder).rows =
      otdLoop otdMillionOrder.capMode otdMillionOrder.maxPart
        otdMillionOrder.deferCompletion (specContinuousTarget otdMillionOrder)
        (planItems otdMillionOrder) (specContinuousTarget otdMillionOrder)
    ∧ specContinuousTarget otdMillionOrder = 900000 :=
  ⟨claim3_reserve_before_slice.1 otdMillionOrder rfl,
   claim3_reserve_before_slice.2 otdMillionOrder rfl rfl⟩

/-- C10: in OTD mode every prefix sum of the suggested quantities is at most
the post reserve continuous target, so the running residual never goes
negative. -/
theorem claim10_prefix_residual (o : Order) (h : o.execMode = ExecMode.OTD) (k : ℕ) :
    (((buildPlan o).rows.take k).map BuiltRow.suggestedQty).sum ≤
      max 0 ((o.orderQty : ℤ) - ⌊(o.orderQty : ℚ) * o.reserveAuctionPct / 100⌋) := by
  unfold buildPlan
  rw [if_pos h]
  show (((otdRows o).take k).map BuiltRow.suggestedQty).sum ≤ otdTarget o
  exact otdLoop_take_sum_le _ _ _ _ _ _ (le_max_left _ _) k

/-- C10, witness: the one slice prefix of the concrete test order. -/
theorem claim10_witness :
    (((buildPlan testOrder).rows.take 1).map BuiltRow.suggestedQty).sum ≤
      max 0 ((testOrder.orderQty : ℤ) -
        ⌊(testOrder.orderQty : ℚ) * testOrder.reserveAuctionPct / 100⌋) :=
  claim10_prefix_residual testOrder rfl 1

/-- C4: sliceSession on the 09:30 to 10:30 window with a 30 minute step
yields exactly the two slices [09:30, 10:00) and [10:00, 10:30); and for
every window with end after start and positive step, the slice count is
max 1 (ceil of the window over the step), consecutive slices are contiguous
and the last slice end is exactly the window end. -/
theorem claim4_session_slicing :
    timeSlices 570 630 30 = [{ s := 570, e := 600 }, { s := 600, e := 630 }]
    ∧ ∀ (start endT : ℤ) (step : ℕ), start < endT → 0 < step →
        ((((timeSlices start endT step).length : ℤ) =
            max 1 ⌈((endT - start : ℤ) : ℚ) / (step : ℚ)⌉)
        ∧ (∀ i : ℕ, ∀ h : i + 1 < (timeSlices start endT step).length,
            ((timeSlices start endT step).get ⟨i + 1, h⟩).s =
              ((timeSlices start endT step).get ⟨i, Nat.lt_of_succ_lt h⟩).e)
        ∧ ∀ h0 : 0 < (timeSlices start endT step).length,
            ((timeSlices start endT step).get
              ⟨(timeSlices start endT step).length - 1, Nat.sub_lt h0 one_pos⟩).e = endT) := by
  constructor
  · decide
  · intro start endT step hlt hstep
    have hT : (((endT - start).toNat : ℤ)) = endT - start :=
      Int.toNat_of_nonneg (by omega)
    refine ⟨?_, ?_, ?_⟩
    · have hb := ceil_div_bridge (endT - start).toNat step hstep
      have hb2 : (((endT - start).toNat : ℚ)) = ((endT - start : ℤ) : ℚ) := by
        rw [← hT]
        norm_cast
      rw [timeSlices_length, Nat.cast_max, hb, hb2]
      norm_cast
    · intro i h
      have hlen := timeSlices_length start endT step
      have hne : i ≠ max 1 (((endT - start).toNat + step - 1) / step) - 1 := by
        rw [hlen] at h
        omega
      rw [timeSlices_get start endT step (i + 1) h,
        timeSlices_get start endT step i (Nat.lt_of_succ_lt h)]
      dsimp only
      rw [if_neg hne]
      norm_cast
    · intro h0
      have hlen := timeSlices_length start endT step
      rw [timeSlices_get]
      dsimp only
      rw [if_pos (by rw [hlen])]

/-- C4, witness at the concrete window 09:30 to 10:30 with a 30 minute
step. -/
theorem claim4_witness :
    (((timeSlices 570 630 30).length : ℤ) = max 1 ⌈((630 - 570 : ℤ) : ℚ) / (30 : ℚ)⌉)
    ∧ ((timeSlices 570 630 30).get
        ⟨1, by rw [timeSlices_length]; decide⟩).s =
      ((timeSlices 570 630 30).get ⟨0, by rw [timeSlices_length]; decide⟩).e :=
  ⟨(claim4_session_slicing.2 570 630 30 (by norm_num) (by norm_num)).1,
   (claim4_session_slicing.2 570 630 30 (by norm_num) (by norm_num)).2.1 0
     (by rw [timeSlices_length]; decide)⟩

/-- C9, counterexample: for the inverted window 10:00 to 09:00 the single
returned slice runs from 600 back to 540, so its end does not equal its
start and its duration is negative. -/
theorem claim9_counterexample :
    timeSlices 600 540 30 = [{ s := 600, e := 540 }]
    ∧ (540 : ℤ) ≠ 600 ∧ (540 : ℤ) < 600 := by
  refine ⟨by decide, by decide, by decide⟩

/-- C9, amended: for every inverted window with canonical start time and
positive step, sliceSession returns exactly one slice spanning start to the
given end; the slice count is never negative, but the slice keeps the
original end, so its duration is negative rather than zero. -/
theorem claim9_degenerate_window (start endT : ℤ) (step : ℕ)
    (h : endT < start) (h0 : 0 ≤ start) (h1 : start < 1440) (hs : 0 < step) :
    timeSlices start endT step = [{ s := start, e := endT }] := by
  have hT : (endT - start).toNat = 0 := by omega
  have hz : (0 + step - 1) / step = 0 := Nat.div_eq_of_lt (by omega)
  unfold timeSlices
  rw [hT]
  dsimp only
  rw [hz]
  have hr1 : List.range 1 = [0] := by decide
  norm_num [hr1, addMinutes]
  exact Int.emod_eq_of_lt h0 h1

/-- C9, witness at a concrete inverted window. -/
theorem claim9_witness : timeSlices 700 100 25 = [{ s := 700, e := 100 }] :=
  claim9_degenerate_window 700 100 25 (by norm_num) (by norm_num) (by norm_num) (by norm_num)

/-- C5: for every n at least 1 both weight vectors have exactly n entries,
all entries are non negative, each sums to exactly 1 (so within any
tolerance), EQUAL gives every weight 1 / n, and UCURVE entry i is the raw
weight 0.6 + 0.8 (1 - abs (i - mid) / mid), with mid falling back to 1 when
n = 1, divided by the raw sum. -/
theorem claim5_weights_normalized (n : ℕ) (h : 1 ≤ n) :
    (equalWeights n).length = n
    ∧ (uCurveWeights n).length = n
    ∧ (∀ w ∈ equalWeights n, w = 1 / (n : ℚ))
    ∧ (∀ w ∈ equalWeights n, 0 ≤ w)
    ∧ (equalWeights n).sum = 1
    ∧ (∀ w ∈ uCurveWeights n, 0 ≤ w)
    ∧ (uCurveWeights n).sum = 1
    ∧ (∀ i : ℕ, ∀ hi : i < (uCurveWeights n).length,
        (uCurveWeights n).get ⟨i, hi⟩ = uCurveRaw n i / (uCurveRawList n).sum) :=
  ⟨equalWeights_length n, uCurveWeights_length n, equalWeights_eq n,
   equalWeights_nonneg n, equalWeights_sum n h, uCurveWeights_nonneg n,
   uCurveWeights_sum n h,
   fun i hi => by rw [uCurveWeights_get n (by omega) i hi, uCurveNorm_eq h]⟩

/-- C5, witness at n = 3. -/
theorem claim5_witness :
    (equalWeights 3).sum = 1 ∧ (uCurveWeights 3).sum = 1 ∧ (uCurveWeights 3).length = 3 :=
  ⟨(claim5_weights_normalized 3 (by norm_num)).2.2.2.2.1,
   (claim5_weights_normalized 3 (by norm_num)).2.2.2.2.2.2.1,
   (claim5_weights_normalized 3 (by norm_num)).2.1⟩

/-- C7: slippageBps returns 0 when either VWAP is 0; with both VWAPs
positive it is the signed relative difference in basis points, positive for
a BUY below market and for a SELL above market. -/
theorem claim7_slippage_sign :
    (∀ (side : Side) (v : ℚ), performanceBps side v 0 = 0)
    ∧ (∀ (side : Side) (v : ℚ), performanceBps side 0 v = 0)
    ∧ (∀ o m : ℚ, 0 < o → o < m →
        performanceBps Side.BUY o m = (m - o) / m * 10000 ∧ 0 < performanceBps Side.BUY o m)
    ∧ (∀ o m : ℚ, 0 < m → m < o →
        performanceBps Side.SELL o m = (o - m) / m * 10000 ∧
          0 < performanceBps Side.SELL o m) := by
  refine ⟨?_, ?_, ?_, ?_⟩
  · intro side v
    unfold performanceBps
    rw [if_pos (Or.inl rfl)]
  · intro side v
    unfold performanceBps
    rw [if_pos (Or.inr rfl)]
  · intro o m ho hom
    have hm : (0 : ℚ) < m := lt_trans ho hom
    have hg : ¬(m = 0 ∨ o = 0) := by
      push_neg
      exact ⟨ne_of_gt hm, ne_of_gt ho⟩
    unfold performanceBps
    rw [if_neg hg, if_pos rfl]
    exact ⟨rfl, mul_pos (div_pos (by linarith) hm) (by norm_num)⟩
  · intro o m hm hom
    have hg : ¬(m = 0 ∨ o = 0) := by
      push_neg
      exact ⟨ne_of_gt hm, ne_of_gt (lt_trans hm hom)⟩
    unfold performanceBps
    rw [if_neg hg, if_neg (by simp : ¬(Side.SELL = Side.BUY))]
    exact ⟨rfl, mul_pos (div_pos (by linarith) hm) (by norm_num)⟩

/-- C7, witness at concrete VWAP pairs. -/
theorem claim7_witness :
    performanceBps Side.BUY 3 4 = (4 - 3) / 4 * 10000 ∧ 0 < performanceBps Side.SELL 5 4 :=
  ⟨(claim7_slippage_sign.2.2.1 3 4 (by norm_num) (by norm_num)).1,
   (claim7_slippage_sign.2.2.2 5 4 (by norm_num) (by norm_num)).2⟩

/-- C8, counterexample: with executedQty 106 and accumulated target 100 the
delta of 6 reaches the claimed 5 percent AHEAD band, but the code classifies
ON_TRACK because its band is a strict 8 percent. -/
theorem claim8_counterexample :
    pacingTag 106 100 = PacingTag.ON_TRACK
    ∧ (5 / 100 : ℚ) * 100 ≤ (106 : ℚ) - 100
    ∧ PacingTag.ON_TRACK ≠ PacingTag.AHEAD := by
  refine ⟨?_, by norm_num, by decide⟩
  rw [pacingTag_char]
  norm_num

/-- C8, amended: the classification is AHEAD exactly when the accumulated
target is positive and the delta exceeds a strict 8 percent of it, BEHIND
exactly when the delta falls below minus 8 percent of it, and ON_TRACK
otherwise; a zero accumulated target always classifies ON_TRACK. -/
theorem claim8_pacing_band (e a : ℤ) :
    (pacingTag e a = PacingTag.AHEAD ↔ 0 < a ∧ 8 * a < (e - a) * 100)
    ∧ (pacingTag e a = PacingTag.BEHIND ↔ 0 < a ∧ (e - a) * 100 < -(8 * a))
    ∧ (pacingTag e a = PacingTag.ON_TRACK ↔
        ¬(0 < a ∧ 8 * a < (e - a) * 100) ∧ ¬(0 < a ∧ (e - a) * 100 < -(8 * a))) := by
  rw [pacingTag_char]
  refine ⟨?_, ?_, ?_⟩ <;> split_ifs with h1 h2 <;> simp_all <;> omega

/-- C6, counterexample: for staleContOrder the INLINE tail trim fires and
zeroes the single row, but contPlanned keeps the pre trim sum 50, so past
the session end the accumulated target is 0, not contPlanned. -/
theorem claim6_counterexample :
    staleContOrder.sessionEnd ≤ (700 : ℤ)
    ∧ targetAccumByNow (buildPlan staleContOrder) staleContOrder.sessionStart 700 ≠
        (buildPlan staleContOrder).contPlanned := by
  have hs1 : planSlices staleContOrder = [{ s := 600, e := 660 }] := by decide
  have hw1 : planWeights staleContOrder = [1] := by
    rw [planWeights, hs1]
    norm_num [staleContOrder, testOrder, equalWeights]
  have hc1 : contVolPerSlice staleContOrder = [100] := by
    rw [contVolPerSlice, hw1]
    norm_num [staleContOrder, testOrder]
  have hi1 : planItems staleContOrder = [({ s := 600, e := 660 }, 1, 100)] := by
    rw [planItems, hs1, hw1, hc1]
    rfl
  have hpov : inlinePov staleContOrder = 1 / 2 := by
    rw [inlinePov]
    norm_num [staleContOrder, testOrder]
  have hrows0 : inlineRows staleContOrder =
      [{ s := 600, e := 660, expMktVol := 100, maxAllowed := some 200,
         suggestedQty := 50 }] := by
    rw [inlineRows, hi1,
      show staleContOrder.capMode = CapMode.PCT from rfl,
      show staleContOrder.maxPart = 200 from rfl, hpov]
    norm_num [inlineRow, applyCap, rowMaxAllowed]
  have hcp : inlineContPlanned staleContOrder = 50 := by
    rw [inlineContPlanned, hrows0]
    norm_num
  have hap : inlineAuctionPlanned staleContOrder = 100 := by
    rw [inlineAuctionPlanned, if_pos (show staleContOrder.capMode = CapMode.PCT from rfl),
      show (staleContOrder.expectedAuctionVol : ℕ) = 100 from rfl, hpov,
      show staleContOrder.maxPart = 200 from rfl]
    norm_num
  have htp : inlineTotalPlanned staleContOrder = 150 := by
    rw [inlineTotalPlanned, hcp, hap]
    norm_num
  have hexq : inlineExcess staleContOrder = 50 := by
    rw [inlineExcess, htp]
    norm_num [staleContOrder, testOrder]
  have hplan : buildPlan staleContOrder = buildPlanInline staleContOrder := by
    rw [buildPlan, if_neg (by decide : ¬(staleContOrder.execMode = ExecMode.OTD))]
  have hcond : (staleContOrder.orderQty : ℤ) < inlineTotalPlanned staleContOrder := by
    rw [htp]
    norm_num [staleContOrder, testOrder]
  have hinline : buildPlanInline staleContOrder =
      { rows := (trimLoop (inlineExcess staleContOrder)
          (inlineRows staleContOrder).reverse (inlineExcess staleContOrder)).reverse
        contPlanned := inlineContPlanned staleContOrder
        auctionAllowed := auctionAllowedOf staleContOrder
        auctionPlanned := inlineAuctionPlanned staleContOrder } := by
    rw [buildPlanInline, if_pos hcond,
      if_pos (show staleContOrder.deferCompletion = true from rfl)]
  have hrowsT : (trimLoop (inlineExcess staleContOrder)
      (inlineRows staleContOrder).reverse (inlineExcess staleContOrder)).reverse =
      [{ s := 600, e := 660, expMktVol := 100, maxAllowed := some 200,
         suggestedQty := 0 }] := by
    rw [hexq, hrows0]
    norm_num [trimLoop]
  constructor
  · norm_num [staleContOrder, testOrder]
  · rw [hplan, hinline]
    dsimp only
    rw [hcp, targetAccumByNow]
    dsimp only
    rw [hrowsT, accumRows, if_pos (by norm_num : (660 : ℤ) ≤ 700), accumRows]
    norm_num

/-- C6, amended: the accumulated target of a built plan is monotone in the
clock for every order; and once the clock passes the session end it equals
contPlanned, provided the session times are canonical minutes of day, the
interval is positive and the PARTICIPATION stale trim configuration
(deferCompletion with a percent cap above 100) is excluded. -/
theorem claim6_pacing_monotone :
    (∀ (o : Order) (now1 now2 : ℤ), now1 ≤ now2 →
        targetAccumByNow (buildPlan o) o.sessionStart now1 ≤
          targetAccumByNow (buildPlan o) o.sessionStart now2)
    ∧ (∀ (o : Order) (now : ℤ), 0 ≤ o.sessionStart → o.sessionEnd < 1440 →
        0 < o.intervalMins →
        (o.execMode = ExecMode.INLINE → o.deferCompletion = true →
          o.capMode = CapMode.PCT → o.maxPart ≤ 100) →
        o.sessionEnd ≤ now →
        targetAccumByNow (buildPlan o) o.sessionStart now = (buildPlan o).contPlanned) := by
  constructor
  · intro o n1 n2 h
    exact accumRows_mono _ (buildPlan_rows_nonneg o) n1 n2 h
  · intro o now h0 h1 h2 hmp hend
    unfold targetAccumByNow
    rw [accumRows_total _ now ?he]
    case he =>
      intro r hr
      obtain ⟨sl, hsl, he⟩ := buildPlan_rows_e o r hr
      have := timeSlices_e_le o.sessionStart o.sessionEnd o.intervalMins h0 h1 h2 sl hsl
      omega
    refine (buildPlan_cont_eq_sum o (fun hm => ?_)).symm
    have hm2 : o.execMode = ExecMode.INLINE := by
      cases hx : o.execMode
      · exact absurd hx hm
      · rfl
    exact hmp hm2

/-- C6, witness at the concrete test order. -/
theorem claim6_witness :
    targetAccumByNow (buildPlan testOrder) testOrder.sessionStart 580 ≤
      targetAccumByNow (buildPlan testOrder) testOrder.sessionStart 590
    ∧ targetAccumByNow (buildPlan testOrder) testOrder.sessionStart 700 =
        (buildPlan testOrder).contPlanned :=
  ⟨claim6_pacing_monotone.1 testOrder 580 590 (by norm_num),
   claim6_pacing_monotone.2 testOrder 700 (by norm_num [testOrder])
     (by norm_num [testOrder]) (by norm_num [testOrder])
     (fun h => absurd h (by simp [testOrder])) (by norm_num [testOrder])⟩

end ExecutionPlanner
